import Mathlib

/-!
# Single-node execution engine of the scheduler (`internal/scheduler/node.go`)

A shallow embedding of the `Node` type and its methods.  Every method is a pure
function from the node before the call (plus the outcomes of the operating
system calls it makes, given as an explicit record) to the node after the call,
the returned value and the list of observable effects in program order.
A Go `panic` is the `Except.error` branch.
-/

namespace Dagu

/-- A Go `error` value; `none` is `nil`. -/
abbrev GoError := Option String

/-- Two's complement wrap of a 64-bit Go `int`. -/
def wrap64 (x : Int) : Int := (x + 2 ^ 63) % 2 ^ 64 - 2 ^ 63

/-- The `NodeStatus` enumeration (`iota` order). -/
inductive NodeStatus
  | NodeStatus_None
  | NodeStatus_Running
  | NodeStatus_Error
  | NodeStatus_Cancel
  | NodeStatus_Success
  | NodeStatus_Skipped
deriving DecidableEq, Repr

open NodeStatus

/-- Method `NodeStatus.String`. -/
def NodeStatus.String : NodeStatus → String
  | NodeStatus_Running => "running"
  | NodeStatus_Error => "failed"
  | NodeStatus_Cancel => "canceled"
  | NodeStatus_Success => "finished"
  | NodeStatus_Skipped => "skipped"
  | NodeStatus_None => "not started"

/-- The four terminal states named by the specification. -/
def NodeStatus.isTerminal : NodeStatus → Bool
  | NodeStatus_Success => true
  | NodeStatus_Error => true
  | NodeStatus_Cancel => true
  | NodeStatus_Skipped => true
  | _ => false

/-- A `time.Time` value as the civil date and clock reading that `Format` prints. -/
structure Time where
  year : Nat
  month : Nat
  day : Nat
  hour : Nat
  minute : Nat
  second : Nat
  nanosecond : Nat
deriving DecidableEq, Repr

/-- The zero `time.Time` (January 1, year 1, 00:00:00.000000000). -/
def Time.zero : Time := ⟨1, 1, 1, 0, 0, 0, 0⟩

/-- An `*os.File` handle, identified by the name it was opened with. -/
structure File where
  name : String
deriving DecidableEq, Repr

/-- An `*os.Process`. -/
structure Process where
  Pid : Int
deriving DecidableEq, Repr

/-- An `io.Writer` a command stream can be bound to.  `bufio none` is a nil
`*bufio.Writer` stored in the interface. -/
inductive Writer
  | osStdout
  | bufio (f : Option File)
  | file (f : File)
  | multi (a b : Writer)
deriving DecidableEq, Repr

/-- The fields of `exec.Cmd` that `Execute` sets, and the process handle that
`Run` fills in once the process has been started. -/
structure Cmd where
  Path : String
  Args : List String
  Dir : String
  Env : Option (List String)
  Setpgid : Bool
  Pgid : Int
  Stdout : Writer
  Stderr : Writer
  Process : Option Process
deriving DecidableEq, Repr

/-- An `os.Signal` interface value: a `syscall.Signal` or another implementation. -/
inductive OsSignal
  | syscallSignal (n : Int)
  | other (name : String)
deriving DecidableEq, Repr

/-- The cancel function returned by `context.WithCancel`, named by its context. -/
structure CancelFunc where
  ctx : Nat
deriving DecidableEq, Repr

/-- Run-time panics of the modelled code. -/
inductive Fault
  | nilDeref
  | typeAssertion
deriving DecidableEq, Repr

/-- Observable actions, in program order. -/
inductive Effect
  | logSendingSignal (sig : OsSignal) (name : String)
  | logCanceling (name : String)
  | logIgnoredErr (action : String) (err : String)
  | kill (pid : Int) (sig : Int)
  | cancelCtx (ctx : Nat)
  | openOrCreateFile (path : String)
  | createTemp (dir : String) (pattern : String)
  | writeString (f : Option File) (s : String)
  | sync (f : Option File)
  | close (f : Option File)
  | flush (f : File)
  | remove (name : String)
  | pipe
  | run (cmd : Cmd) (environ : List String)
  | drain (f : File)
  | setenv (key value : String)
deriving DecidableEq, Repr

namespace config

/-- Modelled from the spec: the step configuration type `config.Step` is declared
outside the two source files; these are the fields `node.go` reads or writes
(name, command, arguments, unsplit command line, working directory, extra
environment assignments, inline script, stdout path, output variable,
preconditions, mail-on-error flag).  A `nil` slice is `none`. -/
structure Step where
  Name : String
  Command : String
  Args : List String
  CmdWithArgs : String
  Dir : String
  Variables : Option (List String)
  Script : String
  Stdout : String
  Output : String
  Preconditions : Option (List String)
  MailOnError : Bool
deriving DecidableEq, Repr

end config

/-- The struct `NodeState`. -/
structure NodeState where
  Status : NodeStatus
  Log : String
  StartedAt : Time
  FinishedAt : Time
  RetryCount : Int
  DoneCount : Int
  Error : GoError
deriving DecidableEq, Repr

/-- The zero value `NodeState{}`. -/
def NodeState.zero : NodeState :=
  ⟨NodeStatus_None, "", Time.zero, Time.zero, 0, 0, none⟩

/-- The struct `Node` (the mutex carries no data). -/
structure Node where
  Step : config.Step
  NodeState : NodeState
  id : Int
  cmd : Option Cmd
  cancelFunc : Option CancelFunc
  logFile : Option File
  logWriter : Option File
  stdoutFile : Option File
  stdoutWriter : Option File
  outputWriter : Option File
  outputReader : Option File
  scriptFile : Option File
deriving DecidableEq, Repr

/-- Modelled from the spec: `utils.LogIgnoreErr` is outside the source files; a
failure is logged and swallowed, a nil error does nothing. -/
def LogIgnoreErr (action : String) (err : GoError) : List Effect :=
  match err with
  | none => []
  | some e => [Effect.logIgnoredErr action e]

/-- Method `clearState`: `n.NodeState = NodeState{}`. -/
def clearState (n : Node) : Node :=
  { n with NodeState := NodeState.zero }

/-- Method `ReadStatus`. -/
def ReadStatus (n : Node) : NodeStatus := n.NodeState.Status

/-- Method `updateStatus`. -/
def updateStatus (n : Node) (status : NodeStatus) : Node :=
  { n with NodeState := { n.NodeState with Status := status } }

/-- Method `signal`.  `killResult` is what `syscall.Kill` returns if it is
called.  The process handle is dereferenced before the type assertion on `sig`
is evaluated. -/
def signal (n : Node) (sig : OsSignal) (killResult : GoError) :
    Except Fault (Node × List Effect) :=
  let status := n.NodeState.Status
  let sent : Except Fault (List Effect) :=
    if status = NodeStatus_Running then
      match n.cmd with
      | none => Except.ok []
      | some c =>
        match c.Process with
        | none => Except.error Fault.nilDeref
        | some p =>
          match sig with
          | OsSignal.other _ => Except.error Fault.typeAssertion
          | OsSignal.syscallSignal s =>
            Except.ok ([Effect.logSendingSignal sig n.Step.Name, Effect.kill (-p.Pid) s]
              ++ LogIgnoreErr "sending signal" killResult)
    else Except.ok []
  match sent with
  | Except.error f => Except.error f
  | Except.ok effs =>
    if status = NodeStatus_Running then
      Except.ok ({ n with NodeState := { n.NodeState with Status := NodeStatus_Cancel } }, effs)
    else
      Except.ok (n, effs)

/-- Method `cancel`. -/
def cancel (n : Node) : Node × List Effect :=
  let status := n.NodeState.Status
  let n1 : Node :=
    if status = NodeStatus_Running then
      { n with NodeState := { n.NodeState with Status := NodeStatus_Cancel } }
    else n
  match n1.cancelFunc with
  | some fn => (n1, [Effect.logCanceling n1.Step.Name, Effect.cancelCtx fn.ctx])
  | none => (n1, [])

/-- Method `ReadRetryCount`. -/
def ReadRetryCount (n : Node) : Int := n.NodeState.RetryCount

/-- Method `ReadDoneCount`. -/
def ReadDoneCount (n : Node) : Int := n.NodeState.DoneCount

/-- Method `incRetryCount`. -/
def incRetryCount (n : Node) : Node :=
  { n with NodeState := { n.NodeState with RetryCount := wrap64 (n.NodeState.RetryCount + 1) } }

/-- Method `incDoneCount`. -/
def incDoneCount (n : Node) : Node :=
  { n with NodeState := { n.NodeState with DoneCount := wrap64 (n.NodeState.DoneCount + 1) } }

/-! ## Library functions used by `setup` -/

/-- Decimal digit character. -/
def digitChar (d : Nat) : Char := Char.ofNat (48 + d % 10)

/-- Decimal digits of `x`, least significant first. -/
def digitsRev : Nat → Nat → List Char
  | 0, _ => []
  | fuel + 1, x =>
    if x < 10 then [digitChar x] else digitChar x :: digitsRev fuel (x / 10)

/-- The unexported `appendInt` of package `time` on a non-negative value:
decimal digits, zero-padded on the left to `width`. -/
def appendInt (x width : Nat) : List Char :=
  let ds := (digitsRev (x + 1) x).reverse
  List.replicate (width - ds.length) '0' ++ ds

/-- `Time.Format` with the layout `20060102.15:04:05.000`: four-digit year,
two-digit month, day, hour, minute, second, and the first three of the nine
digits of the nanosecond field. -/
def Time.Format (t : Time) : List Char :=
  appendInt t.year 4 ++ appendInt t.month 2 ++ appendInt t.day 2 ++ ['.'] ++
  appendInt t.hour 2 ++ [':'] ++ appendInt t.minute 2 ++ [':'] ++ appendInt t.second 2 ++
  ['.'] ++ (appendInt (t.nanosecond % 1000000000) 9).take 3

/-- Path elements between separators (`/`). -/
def splitSep : List Char → List (List Char)
  | [] => [[]]
  | c :: cs =>
    if c = '/' then [] :: splitSep cs
    else
      match splitSep cs with
      | [] => [[c]]
      | h :: t => (c :: h) :: t

/-- One element of the scan in `filepath.Clean`; `out` holds the kept elements,
last one first.  Empty elements and `.` are skipped, `..` removes the last kept
element when there is one that is not itself `..`, is dropped at the root and is
kept otherwise. -/
def cleanStep (rooted : Bool) (out : List (List Char)) (e : List Char) : List (List Char) :=
  if e = [] ∨ e = ['.'] then out
  else if e = ['.', '.'] then
    match out with
    | top :: rest => if top = ['.', '.'] then e :: out else rest
    | [] => if rooted then [] else [e]
  else e :: out

/-- Elements joined by the separator; the argument lists the last element first. -/
def joinRev : List (List Char) → List Char
  | [] => []
  | [e] => e
  | e :: rest => joinRev rest ++ '/' :: e

/-- `filepath.Clean` on a Unix path. -/
def Clean (path : List Char) : List Char :=
  if path = [] then ['.']
  else
    let rooted : Bool := path.head? = some '/'
    let out := (splitSep path).foldl (cleanStep rooted) []
    if rooted then '/' :: joinRev out
    else if out = [] then ['.'] else joinRev out

/-- `filepath.Join` of two elements: empty elements are ignored, the rest is
joined by the separator and cleaned. -/
def Join (a b : List Char) : List Char :=
  if a ≠ [] then Clean (a ++ '/' :: b)
  else if b ≠ [] then Clean b
  else []

/-- `filepath.IsAbs` on Unix. -/
def IsAbs (path : List Char) : Bool := path.head? = some '/'

/-- Modelled from the spec: `utils.TruncString` is outside the source files; the
request identifier is cut to its first `max` characters. -/
def TruncString (val : List Char) (max : Nat) : List Char := val.take max

/-- The file name `setup` builds with `fmt.Sprintf("%s.%s.%s.log", ...)`. -/
def logFileName (validName : List Char) (startedAt : Time) (requestId : List Char) : List Char :=
  validName ++ ['.'] ++ startedAt.Format ++ ['.'] ++ TruncString requestId 8 ++
    ['.', 'l', 'o', 'g']

/-- The value `setup` stores in `n.Log`.  `ValidFilename` stands for
`utils.ValidFilename`, which is outside the source files. -/
def logPath (ValidFilename : String → String → String) (name logDir requestId : String)
    (startedAt : Time) : String :=
  String.mk (Join logDir.data
    (logFileName (ValidFilename name "_").data startedAt requestId.data))

/-! ## `setup` and its three steps -/

/-- Outcomes of the system calls `setup` may make. -/
structure SetupCalls where
  now : Time
  openLog : Except String File
  openStdout : Except String File
  createTemp : Option File
  writeString : GoError
  sync : GoError

/-- Method `setupLog`. -/
def setupLog (n : Node) (o : SetupCalls) : Node × GoError × List Effect :=
  if n.NodeState.Log = "" then (n, none, [])
  else
    match o.openLog with
    | Except.error e =>
      ({ n with logFile := none, NodeState := { n.NodeState with Error := some e } },
        some e, [Effect.openOrCreateFile n.NodeState.Log])
    | Except.ok f =>
      ({ n with logFile := some f, logWriter := some f }, none,
        [Effect.openOrCreateFile n.NodeState.Log])

/-- The path `setupStdout` opens: `n.Stdout`, joined to `n.Dir` when relative. -/
def stdoutPath (n : Node) : String :=
  if !IsAbs n.Step.Stdout.data then String.mk (Join n.Step.Dir.data n.Step.Stdout.data)
  else n.Step.Stdout

/-- Method `setupStdout`. -/
def setupStdout (n : Node) (o : SetupCalls) : Node × GoError × List Effect :=
  if n.Step.Stdout ≠ "" then
    match o.openStdout with
    | Except.error e =>
      ({ n with stdoutFile := none, NodeState := { n.NodeState with Error := some e } },
        some e, [Effect.openOrCreateFile (stdoutPath n)])
    | Except.ok h =>
      ({ n with stdoutFile := some h, stdoutWriter := some h }, none,
        [Effect.openOrCreateFile (stdoutPath n)])
  else (n, none, [])

/-- The write in `setupScript`: through a nil file handle it fails with
`os.ErrInvalid`. -/
def scriptWrite (f : Option File) (o : SetupCalls) : GoError :=
  match f with
  | none => some "invalid argument"
  | some _ => o.writeString

/-- Method `setupScript`.  The error of `os.CreateTemp` is discarded.  The
deferred `Close` is registered only after a successful write. -/
def setupScript (n : Node) (o : SetupCalls) : Node × GoError × List Effect :=
  if n.Step.Script ≠ "" then
    match scriptWrite o.createTemp o with
    | some e =>
      ({ n with scriptFile := o.createTemp }, some e,
        [Effect.createTemp n.Step.Dir "dagu_script-",
          Effect.writeString o.createTemp n.Step.Script])
    | none =>
      ({ n with scriptFile := o.createTemp }, o.sync,
        [Effect.createTemp n.Step.Dir "dagu_script-",
          Effect.writeString o.createTemp n.Step.Script,
          Effect.sync o.createTemp, Effect.close o.createTemp])
  else (n, none, [])

/-- The loop of `setup` over the remaining setup functions. -/
def setupLoop (o : SetupCalls) :
    List (Node → SetupCalls → Node × GoError × List Effect) → Node → Node × GoError × List Effect
  | [], n => (n, none, [])
  | fn :: rest, n =>
    match fn n o with
    | (n1, some err, effs) =>
      ({ n1 with NodeState := { n1.NodeState with Error := some err } }, some err, effs)
    | (n1, none, effs) =>
      match setupLoop o rest n1 with
      | (n2, r, effs2) => (n2, r, effs ++ effs2)

/-- Method `setup`. -/
def setup (ValidFilename : String → String → String) (n : Node) (o : SetupCalls)
    (logDir requestId : String) : Node × GoError × List Effect :=
  let n1 : Node := { n with NodeState := { n.NodeState with StartedAt := o.now } }
  let n2 : Node := { n1 with NodeState := { n1.NodeState with
    Log := logPath ValidFilename n1.Step.Name logDir requestId n1.NodeState.StartedAt } }
  setupLoop o [setupLog, setupStdout, setupScript] n2

/-! ## `teardown` -/

/-- Outcomes of the flushes and closes `teardown` may perform. -/
structure TeardownCalls where
  flushLog : GoError
  closeLog : GoError
  flushStdout : GoError
  closeStdout : GoError

/-- Method `teardown`; the node itself is not modified. -/
def teardown (n : Node) (o : TeardownCalls) : GoError × List Effect :=
  let lastErr : GoError := none
  let (lastErr, e1) : GoError × List Effect :=
    match n.logWriter with
    | some w => (o.flushLog, [Effect.flush w])
    | none => (lastErr, [])
  let (lastErr, e2) : GoError × List Effect :=
    match n.logFile with
    | some f =>
      (match o.closeLog with
        | some err => some err
        | none => lastErr, [Effect.close (some f)])
    | none => (lastErr, [])
  let (lastErr, e3) : GoError × List Effect :=
    match n.stdoutWriter with
    | some w => (o.flushStdout, [Effect.flush w])
    | none => (lastErr, [])
  let (lastErr, e4) : GoError × List Effect :=
    match n.stdoutFile with
    | some f =>
      (match o.closeStdout with
        | some err => some err
        | none => lastErr, [Effect.close (some f)])
    | none => (lastErr, [])
  let e5 : List Effect :=
    match n.scriptFile with
    | some f => [Effect.remove f.name]
    | none => []
  (lastErr, e1 ++ e2 ++ e3 ++ e4 ++ e5)

/-! ## `Execute` -/

/-- Go `append(s, xs...)` on slices that may be nil: appending nothing to a nil
slice gives back the nil slice. -/
def goAppend (s xs : Option (List String)) : Option (List String) :=
  match s with
  | some l => some (l ++ xs.getD [])
  | none => if xs.getD [] = [] then none else some (xs.getD [])

/-- The environment `exec.Cmd` starts the child with: the calling process's
environment when `Env` is nil, otherwise exactly the entries of `Env`. -/
def childEnviron (env : Option (List String)) (osEnviron : List String) : List String :=
  match env with
  | none => osEnviron
  | some e => e

/-- Result of `cmd.Run()`: the process could not be started, or it was started
and waited for. -/
inductive RunOutcome
  | startFailed (err : String)
  | exited (p : Process) (err : GoError)
deriving DecidableEq, Repr

/-- Method `error` of a run outcome: the value `cmd.Run()` returns. -/
def RunOutcome.err : RunOutcome → GoError
  | RunOutcome.startFailed e => some e
  | RunOutcome.exited _ e => e

/-- Process handle stored in the command after `cmd.Run()`. -/
def RunOutcome.process : RunOutcome → Option Process
  | RunOutcome.startFailed _ => none
  | RunOutcome.exited p _ => some p

/-- Outcomes of the calls `Execute` makes.  `splitCommand` stands for
`utils.SplitCommand(os.ExpandEnv(s))`, `trimSpace` for `strings.TrimSpace`. -/
structure ExecuteCalls where
  ctx : Nat
  splitCommand : String → String × List String
  environ : List String
  pipe : Except String (File × File)
  run : RunOutcome
  closeWriter : GoError
  captured : String
  trimSpace : String → String

/-- Lines 81-83 of `Execute`: an unsplit command line is expanded and split at
call time. -/
def resolveCommand (s : config.Step) (o : ExecuteCalls) : config.Step :=
  if s.CmdWithArgs ≠ "" then
    { s with Command := (o.splitCommand s.CmdWithArgs).1, Args := (o.splitCommand s.CmdWithArgs).2 }
  else s

/-- Lines 84-89 of `Execute`: the script file name is appended to the arguments. -/
def commandArgs (n : Node) : List String :=
  match n.scriptFile with
  | some f => [] ++ n.Step.Args ++ [f.name]
  | none => n.Step.Args

/-- Lines 99-109 of `Execute`: the standard output writer before the output pipe
is attached. -/
def commandStdout (n : Node) : Writer :=
  match n.stdoutWriter with
  | some w => Writer.multi (Writer.bufio n.logWriter) (Writer.bufio (some w))
  | none =>
    match n.logWriter with
    | some w => Writer.bufio (some w)
    | none => Writer.osStdout

/-- Lines 99-105 of `Execute`: the standard error writer. -/
def commandStderr (n : Node) : Writer :=
  match n.logWriter with
  | some w => Writer.bufio (some w)
  | none => Writer.osStdout

/-- Lines 90-109 of `Execute`: the command object.  `exec.CommandContext` leaves
`Env` nil, to which the configured variables are appended. -/
def buildCmd (n : Node) : Cmd :=
  { Path := n.Step.Command, Args := commandArgs n, Dir := n.Step.Dir,
    Env := goAppend none n.Step.Variables, Setpgid := true, Pgid := 0,
    Stdout := commandStdout n, Stderr := commandStderr n, Process := none }

/-- Lines 119-129 of `Execute`: run the command, record its error, publish the
captured output. -/
def runAndCapture (n : Node) (cmd : Cmd) (o : ExecuteCalls) (before : List Effect) :
    Node × GoError × List Effect :=
  ({ n with cmd := some { cmd with Process := o.run.process },
            NodeState := { n.NodeState with Error := o.run.err } },
    o.run.err,
    before ++ [Effect.run cmd (childEnviron cmd.Env o.environ)] ++
      (match n.outputReader with
        | some r =>
          if n.Step.Output ≠ "" then
            [Effect.close n.outputWriter] ++ LogIgnoreErr "close pipe writer" o.closeWriter ++
            [Effect.drain r, Effect.setenv n.Step.Output (o.trimSpace o.captured)]
          else []
        | none => []))

/-- The node at line 110 of `Execute`: cancel function bound, command resolved
and built. -/
def prepared (n : Node) (o : ExecuteCalls) : Node :=
  { n with cancelFunc := some ⟨o.ctx⟩, Step := resolveCommand n.Step o,
           cmd := some (buildCmd { n with Step := resolveCommand n.Step o }) }

/-- Method `Execute`. -/
def Execute (n : Node) (o : ExecuteCalls) : Node × GoError × List Effect :=
  let n1 : Node := prepared n o
  let cmd : Cmd := buildCmd n1
  if n1.Step.Output ≠ "" then
    match o.pipe with
    | Except.error e =>
      ({ n1 with outputReader := none, outputWriter := none }, some e, [Effect.pipe])
    | Except.ok (r, w) =>
      runAndCapture { n1 with outputReader := some r, outputWriter := some w }
        { cmd with Stdout := Writer.multi cmd.Stdout (Writer.file w) } o [Effect.pipe]
  else runAndCapture n1 cmd o []

/-! ## `init` and the global counter `nextNodeId` -/

/-- Initial value of the package variable `nextNodeId`. -/
def nextNodeIdInit : Int := 1

/-- Lines 298-306 of `init`: nil slices of the step are replaced by empty ones
(the check on `Variables` is written twice in the source). -/
def initSlices (s : config.Step) : config.Step :=
  let s : config.Step := if s.Variables = none then { s with Variables := some [] } else s
  let s : config.Step := if s.Variables = none then { s with Variables := some [] } else s
  let s : config.Step :=
    if s.Preconditions = none then { s with Preconditions := some [] } else s
  s

/-- Method `init`, with the package variable `nextNodeId` passed in and out. -/
def init (n : Node) (nextNodeId : Int) : Node × Int :=
  if n.id ≠ 0 then (n, nextNodeId)
  else ({ n with id := nextNodeId, Step := initSlices n.Step }, wrap64 (nextNodeId + 1))

/-! ## Sequences of operations on one node -/

/-- One call on a node, together with the outcomes of the system calls it makes. -/
inductive Op
  | updateStatus (status : NodeStatus)
  | signal (sig : OsSignal) (killResult : GoError)
  | cancel
  | incRetryCount
  | incDoneCount
  | setup (o : SetupCalls) (logDir requestId : String)
  | Execute (o : ExecuteCalls)
  | teardown (o : TeardownCalls)
  | clearState

/-- Recognises a `clearState()` call. -/
def Op.isClearState : Op → Bool
  | Op.clearState => true
  | _ => false

/-- Recognises an `updateStatus(..)` call. -/
def Op.isUpdateStatus : Op → Bool
  | Op.updateStatus _ => true
  | _ => false

/-- The node after one call; `Except.error` when the call panics. -/
def Op.apply (ValidFilename : String → String → String) (n : Node) : Op → Except Fault Node
  | Op.updateStatus s => Except.ok (Dagu.updateStatus n s)
  | Op.signal sig k =>
    match Dagu.signal n sig k with
    | Except.ok (n1, _) => Except.ok n1
    | Except.error f => Except.error f
  | Op.cancel => Except.ok (Dagu.cancel n).1
  | Op.incRetryCount => Except.ok (Dagu.incRetryCount n)
  | Op.incDoneCount => Except.ok (Dagu.incDoneCount n)
  | Op.setup o logDir requestId => Except.ok (Dagu.setup ValidFilename n o logDir requestId).1
  | Op.Execute o => Except.ok (Dagu.Execute n o).1
  | Op.teardown _ => Except.ok n
  | Op.clearState => Except.ok (Dagu.clearState n)

/-- The node after a sequence of calls, stopping at the first panic. -/
def runOps (ValidFilename : String → String → String) : Node → List Op → Except Fault Node
  | n, [] => Except.ok n
  | n, op :: rest =>
    match Op.apply ValidFilename n op with
    | Except.ok n1 => runOps ValidFilename n1 rest
    | Except.error f => Except.error f

/-! ## Sequences of `init()` calls over a collection of nodes -/

/-- A collection of nodes and the package variable `nextNodeId`. -/
structure Nodes where
  nodes : List Node
  nextNodeId : Int

/-- Calls `init()` on the node at position `i` (no call when there is none). -/
def Nodes.initAt (w : Nodes) (i : Nat) : Nodes :=
  match w.nodes.get? i with
  | none => w
  | some n => ⟨w.nodes.set i (init n w.nextNodeId).1, (init n w.nextNodeId).2⟩

/-- A sequence of `init()` calls, one at a time, on the nodes at the listed positions. -/
def Nodes.initAll (w : Nodes) (calls : List Nat) : Nodes :=
  calls.foldl Nodes.initAt w

/-- The id of the node at position `i` (0 when there is none). -/
def Nodes.idAt (w : Nodes) (i : Nat) : Int :=
  match w.nodes.get? i with
  | none => 0
  | some n => n.id

/-- The environment given to the first process started among the effects. -/
def startedEnviron : List Effect → Option (List String)
  | [] => none
  | Effect.run _ env :: _ => some env
  | _ :: rest => startedEnviron rest

/-! ## Sample values -/

/-- Stand-in for `utils.ValidFilename` on names that need no replacement. -/
def keepName : String → String → String := fun s _ => s

/-- A step running `echo hi`. -/
def sampleStep : config.Step :=
  ⟨"step", "echo", ["hi"], "", "/tmp", none, "", "", "", none, false⟩

/-- A freshly constructed node. -/
def sampleNode : Node :=
  ⟨sampleStep, NodeState.zero, 0, none, none, none, none, none, none, none, none, none⟩

/-- The status of the node a sequence of calls ends with. -/
def finalStatus : Except Fault Node → Option NodeStatus
  | Except.ok n => some n.NodeState.Status
  | Except.error _ => none

/-- Recognises a signal sent with `syscall.Kill`. -/
def Effect.isKill : Effect → Bool
  | Effect.kill _ _ => true
  | _ => false

/-- The status both `signal` and `cancel` leave: `Cancel` from `Running`,
otherwise the status before the call. -/
def statusAfterCancel (s : NodeStatus) : NodeStatus :=
  if s = NodeStatus_Running then NodeStatus_Cancel else s

/-- A node that has finished successfully. -/
def successNode : Node := updateStatus sampleNode NodeStatus_Success

/-- System call outcomes of a run of `echo hi` that exits cleanly as process 4242. -/
def cleanRun : ExecuteCalls :=
  { ctx := 1, splitCommand := fun s => (s, []), environ := ["PATH=/bin"],
    pipe := Except.error "too many open files", run := RunOutcome.exited ⟨4242⟩ none,
    closeWriter := none, captured := "", trimSpace := fun s => s }

/-- System call outcomes of a run whose process cannot be started. -/
def failedStart : ExecuteCalls :=
  { cleanRun with run := RunOutcome.startFailed "executable file not found" }

/-- A node marked `Running` whose process has been started. -/
def startedNode : Node := (Execute (updateStatus sampleNode NodeStatus_Running) cleanRun).1

/-- A node marked `Running` whose command object exists but whose process was
never started. -/
def unstartedNode : Node := (Execute (updateStatus sampleNode NodeStatus_Running) failedStart).1

/-- A node after a successful `setup` with a log file and a stdout file open. -/
def openNode : Node :=
  { sampleNode with logFile := some ⟨"/logs/step.log"⟩, logWriter := some ⟨"/logs/step.log"⟩,
                    stdoutFile := some ⟨"/tmp/out.txt"⟩, stdoutWriter := some ⟨"/tmp/out.txt"⟩ }

/-- A node whose step publishes its output as the variable `RESULT`. -/
def outputNode : Node :=
  { sampleNode with Step := { sampleStep with Output := "RESULT" } }

/-- A node whose step configures the extra environment assignment `FOO=bar`. -/
def variablesNode : Node :=
  { sampleNode with Step := { sampleStep with Variables := some ["FOO=bar"] } }

/-- A file name that `filepath.Clean` keeps as it is: not empty, not `.`, not `..`. -/
def plainName (f : List Char) : Prop := f ≠ [] ∧ f ≠ ['.'] ∧ f ≠ ['.', '.']

/-- What `filepath.Clean` prints before a last element that it keeps. -/
def cleanLead (rooted : Bool) (out : List (List Char)) : List Char :=
  (if rooted then ['/'] else []) ++ (if out = [] then [] else joinRev out ++ ['/'])

/-- System call outcomes of a `setup` at 2022-03-07 09:05:01.100000000 in which
every call succeeds. -/
def firstAttempt : SetupCalls :=
  { now := ⟨2022, 3, 7, 9, 5, 1, 100000000⟩, openLog := Except.ok ⟨"log"⟩,
    openStdout := Except.ok ⟨"stdout"⟩, createTemp := some ⟨"/tmp/dagu_script-1"⟩,
    writeString := none, sync := none }

/-- The same `setup` 999999 nanoseconds later. -/
def sameMillisecond : SetupCalls :=
  { firstAttempt with now := ⟨2022, 3, 7, 9, 5, 1, 100999999⟩ }

/-- The same `setup` one millisecond later. -/
def nextMillisecond : SetupCalls :=
  { firstAttempt with now := ⟨2022, 3, 7, 9, 5, 1, 101000000⟩ }

/-- The node at line 182 of `setup`: start time and log path stored. -/
def stamped (ValidFilename : String → String → String) (n : Node) (o : SetupCalls)
    (logDir requestId : String) : Node :=
  { n with NodeState := { n.NodeState with
      StartedAt := o.now, Log := logPath ValidFilename n.Step.Name logDir requestId o.now } }

/-- System call outcomes of a `setup` in which the log file cannot be opened. -/
def logDenied : SetupCalls :=
  { firstAttempt with openLog := Except.error "open /logs: permission denied" }

/-- Number of nodes of the collection that hold a non-zero id. -/
def Nodes.assigned (w : Nodes) : Nat :=
  w.nodes.countP (fun n => decide (n.id ≠ 0))

/-- The state the claims about `init()` start from: every id is 0 and the counter
has its initial value. -/
def Nodes.fresh (nodes : List Node) : Nodes := ⟨nodes, nextNodeIdInit⟩

/-- The node at position `i` exists and has no id yet: `init()` on it assigns one. -/
def Nodes.pending (w : Nodes) (i : Nat) : Bool :=
  match w.nodes.get? i with
  | none => false
  | some n => decide (n.id = 0)

/-- Invariant of the id counter: it is one more than the number of ids handed
out, every id handed out is positive and below it, and no id is held twice. -/
def Nodes.Consistent (w : Nodes) : Prop :=
  w.nextNodeId = 1 + (w.assigned : Int) ∧
  (∀ j, w.idAt j = 0 ∨ (1 ≤ w.idAt j ∧ w.idAt j < w.nextNodeId)) ∧
  (∀ i j, i ≠ j → w.idAt i ≠ 0 → w.idAt i ≠ w.idAt j)

/-! # Theorems -/

/-! ## Status is written only by `updateStatus`, `signal`, `cancel` and `clearState` -/

theorem setupLog_Status (n : Node) (o : SetupCalls) :
    (setupLog n o).1.NodeState.Status = n.NodeState.Status := by
  unfold setupLog
  split
  · rfl
  · split <;> rfl

theorem setupStdout_Status (n : Node) (o : SetupCalls) :
    (setupStdout n o).1.NodeState.Status = n.NodeState.Status := by
  unfold setupStdout
  split
  · split <;> rfl
  · rfl

theorem setupScript_Status (n : Node) (o : SetupCalls) :
    (setupScript n o).1.NodeState.Status = n.NodeState.Status := by
  unfold setupScript
  split
  · split <;> rfl
  · rfl

theorem setupLoop_cons_err (o : SetupCalls)
    (fn : Node → SetupCalls → Node × GoError × List Effect)
    (rest : List (Node → SetupCalls → Node × GoError × List Effect))
    (n n1 : Node) (err : String) (effs : List Effect) (h : fn n o = (n1, some err, effs)) :
    setupLoop o (fn :: rest) n =
      ({ n1 with NodeState := { n1.NodeState with Error := some err } }, some err, effs) := by
  simp only [setupLoop, h]

theorem setupLoop_cons_ok (o : SetupCalls)
    (fn : Node → SetupCalls → Node × GoError × List Effect)
    (rest : List (Node → SetupCalls → Node × GoError × List Effect))
    (n n1 : Node) (effs : List Effect) (h : fn n o = (n1, none, effs)) :
    setupLoop o (fn :: rest) n =
      ((setupLoop o rest n1).1, (setupLoop o rest n1).2.1, effs ++ (setupLoop o rest n1).2.2) := by
  simp only [setupLoop, h]

theorem setupLoop_Status (o : SetupCalls)
    (fns : List (Node → SetupCalls → Node × GoError × List Effect))
    (hf : ∀ fn ∈ fns, ∀ n, (fn n o).1.NodeState.Status = n.NodeState.Status) (n : Node) :
    (setupLoop o fns n).1.NodeState.Status = n.NodeState.Status := by
  induction fns generalizing n with
  | nil => rfl
  | cons fn rest ih =>
    have h1 := hf fn (List.mem_cons_self _ _) n
    have ih2 := fun m => ih (fun g hg => hf g (List.mem_cons_of_mem _ hg)) m
    rcases hfn : fn n o with ⟨n1, r, effs⟩
    rw [hfn] at h1
    cases r with
    | some err =>
      rw [setupLoop_cons_err o fn rest n n1 err effs hfn]
      exact h1
    | none =>
      rw [setupLoop_cons_ok o fn rest n n1 effs hfn]
      exact (ih2 n1).trans h1

theorem setup_Status (vf : String → String → String) (n : Node) (o : SetupCalls)
    (logDir requestId : String) :
    (setup vf n o logDir requestId).1.NodeState.Status = n.NodeState.Status := by
  unfold setup
  rw [setupLoop_Status]
  intro fn hfn m
  simp only [List.mem_cons, List.mem_singleton, List.not_mem_nil, or_false] at hfn
  rcases hfn with h | h | h
  · rw [h]; exact setupLog_Status m o
  · rw [h]; exact setupStdout_Status m o
  · rw [h]; exact setupScript_Status m o

theorem Execute_Status (n : Node) (o : ExecuteCalls) :
    (Execute n o).1.NodeState.Status = n.NodeState.Status := by
  unfold Execute
  dsimp only
  split
  · split <;> rfl
  · rfl

theorem signal_of_not_running (n : Node) (sig : OsSignal) (k : GoError)
    (h : n.NodeState.Status ≠ NodeStatus_Running) : signal n sig k = Except.ok (n, []) := by
  unfold signal
  simp only [h, if_false]

theorem cancel_of_not_running (n : Node) (h : n.NodeState.Status ≠ NodeStatus_Running) :
    (cancel n).1 = n := by
  unfold cancel
  simp only [h, if_false]
  split <;> rfl

theorem not_running_of_terminal (s : NodeStatus) (h : s.isTerminal = true) :
    s ≠ NodeStatus_Running := by
  intro e
  rw [e] at h
  exact Bool.noConfusion h

theorem apply_terminal (vf : String → String → String) (n : Node) (op : Op)
    (hc : op.isClearState = false) (hu : op.isUpdateStatus = false)
    (ht : n.NodeState.Status.isTerminal = true) :
    ∃ n1, Op.apply vf n op = Except.ok n1 ∧ n1.NodeState.Status = n.NodeState.Status := by
  have hr := not_running_of_terminal _ ht
  cases op with
  | updateStatus s => exact Bool.noConfusion hu
  | signal sig k =>
    refine ⟨n, ?_, rfl⟩
    simp only [Op.apply, signal_of_not_running n sig k hr]
  | cancel =>
    refine ⟨(cancel n).1, rfl, ?_⟩
    rw [cancel_of_not_running n hr]
  | incRetryCount => exact ⟨_, rfl, rfl⟩
  | incDoneCount => exact ⟨_, rfl, rfl⟩
  | setup o d r => exact ⟨_, rfl, setup_Status vf n o d r⟩
  | Execute o => exact ⟨_, rfl, Execute_Status n o⟩
  | teardown o => exact ⟨_, rfl, rfl⟩
  | clearState => exact Bool.noConfusion hc

/-- C1 (amended): for every node and every sequence of signal, cancel,
incRetryCount, incDoneCount, setup, Execute and teardown calls (no clearState and
no updateStatus call), a status that is Success, Error, Cancel or Skipped at the
start is the status at the end, and the sequence does not panic.  updateStatus(s)
sets the status to s from every state, the terminal ones included, and
clearState() sets it to NotStarted. -/
theorem terminal_status_kept (vf : String → String → String) (n : Node) (ops : List Op)
    (hops : ∀ op ∈ ops, op.isClearState = false ∧ op.isUpdateStatus = false)
    (ht : n.NodeState.Status.isTerminal = true) :
    (∃ n1, runOps vf n ops = Except.ok n1 ∧ n1.NodeState.Status = n.NodeState.Status) ∧
    (∀ s, (updateStatus n s).NodeState.Status = s) ∧
    (clearState n).NodeState.Status = NodeStatus_None := by
  refine ⟨?_, fun _ => rfl, rfl⟩
  induction ops generalizing n with
  | nil => exact ⟨n, rfl, rfl⟩
  | cons op rest ih =>
    obtain ⟨hc, hu⟩ := hops op (List.mem_cons_self _ _)
    obtain ⟨n1, h1, hs1⟩ := apply_terminal vf n op hc hu ht
    obtain ⟨n2, h2, hs2⟩ := ih n1 (fun p hp => hops p (List.mem_cons_of_mem _ hp)) (hs1 ▸ ht)
    refine ⟨n2, ?_, hs2.trans hs1⟩
    simp only [runOps, h1, h2]

/-- Witness for C1 (amended): a node that ended with Success keeps it through
cancel, signal, a retry-counter increment, Execute and teardown. -/
theorem terminal_status_kept_witness :
    (∃ n1, runOps keepName successNode
        [Op.cancel, Op.signal (OsSignal.syscallSignal 15) none, Op.incRetryCount,
          Op.Execute cleanRun, Op.teardown ⟨none, none, none, none⟩] = Except.ok n1 ∧
      n1.NodeState.Status = successNode.NodeState.Status) ∧
    (∀ s, (updateStatus successNode s).NodeState.Status = s) ∧
    (clearState successNode).NodeState.Status = NodeStatus_None :=
  terminal_status_kept keepName successNode _
    (by
      intro op hop
      simp only [List.mem_cons, List.mem_singleton, List.not_mem_nil, or_false] at hop
      rcases hop with h | h | h | h | h <;> subst h <;> exact ⟨rfl, rfl⟩)
    rfl

/-- C1 (as stated) fails: the sequence consisting of the single call
updateStatus(Running) contains no clearState(), yet it takes a node from Success
to Running. -/
theorem updateStatus_leaves_terminal :
    successNode.NodeState.Status = NodeStatus_Success ∧
    NodeStatus.isTerminal NodeStatus_Success = true ∧
    Op.isClearState (Op.updateStatus NodeStatus_Running) = false ∧
    finalStatus (runOps keepName successNode [Op.updateStatus NodeStatus_Running]) =
      some NodeStatus_Running :=
  ⟨rfl, rfl, rfl, rfl⟩

/-! ## `signal` and `cancel` -/

theorem signal_of_running (n : Node) (sig : OsSignal) (k : GoError) (n1 : Node)
    (effs : List Effect) (hr : n.NodeState.Status = NodeStatus_Running)
    (h : signal n sig k = Except.ok (n1, effs)) :
    n1 = { n with NodeState := { n.NodeState with Status := NodeStatus_Cancel } } := by
  unfold signal at h
  simp only [hr, if_true] at h
  cases hc : n.cmd with
  | none =>
    simp only [hc] at h
    injection h with h
    injection h with h1 h2
    exact h1.symm
  | some c =>
    simp only [hc] at h
    cases hp : c.Process with
    | none => simp only [hp] at h; exact Except.noConfusion h
    | some p =>
      simp only [hp] at h
      cases sig with
      | other nm => exact Except.noConfusion h
      | syscallSignal s =>
        simp only at h
        injection h with h
        injection h with h1 h2
        exact h1.symm

theorem cancel_node (n : Node) :
    (cancel n).1 =
      { n with NodeState := { n.NodeState with
          Status := statusAfterCancel n.NodeState.Status } } := by
  unfold cancel statusAfterCancel
  by_cases hr : n.NodeState.Status = NodeStatus_Running
  · simp only [hr, if_true]
    split <;> rfl
  · simp only [hr, if_false]
    split <;> rfl

theorem cancel_no_kill (n : Node) : (cancel n).2.any Effect.isKill = false := by
  unfold cancel
  dsimp only
  split <;> rfl

theorem cancel_effects (n : Node) :
    (cancel n).2 =
      (match n.cancelFunc with
        | some fn => [Effect.logCanceling n.Step.Name, Effect.cancelCtx fn.ctx]
        | none => []) := by
  unfold cancel
  by_cases hr : n.NodeState.Status = NodeStatus_Running
  · simp only [hr, if_true]
    cases n.cancelFunc <;> rfl
  · simp only [hr, if_false]
    cases n.cancelFunc <;> rfl

/-- C2: for every node state, `cancel()` and a `signal(sig)` call that returns
leave the status at Cancel when it was Running and unchanged otherwise, and
change nothing else on the node; `signal` sends an OS signal only when the status
was Running and `cancel` sends none (its only effects are the log line and the
call of the cancel function, made whenever one is bound).  Hence with a status other than Running, `signal` returns
with no effect at all and both calls leave the node untouched; the same holds for
a second call right after a first.  `signal` returns whenever the status is not
Running, no command object exists, or the command has a started process and the
signal is a `syscall.Signal`. -/
theorem signal_cancel_effect (n : Node) (sig : OsSignal) (k : GoError) :
    (cancel n).1 =
      { n with NodeState := { n.NodeState with
          Status := statusAfterCancel n.NodeState.Status } } ∧
    (cancel n).2.any Effect.isKill = false ∧
    (cancel n).2 =
      (match n.cancelFunc with
        | some fn => [Effect.logCanceling n.Step.Name, Effect.cancelCtx fn.ctx]
        | none => []) ∧
    (∀ n1 effs, signal n sig k = Except.ok (n1, effs) →
      n1 = { n with NodeState := { n.NodeState with
          Status := statusAfterCancel n.NodeState.Status } } ∧
      (effs.any Effect.isKill = true → n.NodeState.Status = NodeStatus_Running) ∧
      (∀ sig2 k2, signal n1 sig2 k2 = Except.ok (n1, []))) ∧
    (n.NodeState.Status ≠ NodeStatus_Running →
      signal n sig k = Except.ok (n, []) ∧ (cancel n).1 = n) ∧
    (cancel (cancel n).1).1 = (cancel n).1 ∧
    ((n.NodeState.Status ≠ NodeStatus_Running ∨ n.cmd = none ∨
        ∃ c p s, n.cmd = some c ∧ c.Process = some p ∧ sig = OsSignal.syscallSignal s) →
      ∃ r, signal n sig k = Except.ok r) := by
  refine ⟨cancel_node n, cancel_no_kill n, cancel_effects n, ?_, ?_, ?_, ?_⟩
  · intro n1 effs h
    by_cases hr : n.NodeState.Status = NodeStatus_Running
    · have h1 := signal_of_running n sig k n1 effs hr h
      refine ⟨?_, fun _ => hr, ?_⟩
      · rw [h1]; unfold statusAfterCancel; simp only [hr, if_true]
      · intro sig2 k2
        apply signal_of_not_running
        rw [h1]
        intro hc
        exact NodeStatus.noConfusion hc
    · rw [signal_of_not_running n sig k hr] at h
      injection h with h
      injection h with h1 h2
      subst h1
      subst h2
      refine ⟨?_, fun hk => Bool.noConfusion hk, fun sig2 k2 => signal_of_not_running _ sig2 k2 hr⟩
      unfold statusAfterCancel
      simp only [hr, if_false]
  · intro hr
    exact ⟨signal_of_not_running n sig k hr, cancel_of_not_running n hr⟩
  · apply cancel_of_not_running
    rw [cancel_node]
    unfold statusAfterCancel
    by_cases hr : n.NodeState.Status = NodeStatus_Running
    · simp only [hr, if_true]; intro hc; exact NodeStatus.noConfusion hc
    · simp only [hr, if_false]; exact hr
  · intro h
    by_cases hr : n.NodeState.Status = NodeStatus_Running
    · rcases h with h | h | ⟨c, p, s, hc, hp, hs⟩
      · exact absurd hr h
      · exact ⟨_, by unfold signal; simp only [hr, if_true, h]; rfl⟩
      · exact ⟨_, by unfold signal; simp only [hr, if_true, hc, hp, hs]; rfl⟩
    · exact ⟨_, signal_of_not_running n sig k hr⟩

/-- Witness for C2: SIGTERM sent to a running node with a started process (pid
4242) is delivered to the process group, the status becomes Cancel and nothing
else changes; a second `signal` then does nothing. -/
theorem signal_cancel_effect_witness :
    signal startedNode (OsSignal.syscallSignal 15) none =
        Except.ok (updateStatus startedNode NodeStatus_Cancel,
          [Effect.logSendingSignal (OsSignal.syscallSignal 15) "step", Effect.kill (-4242) 15]) ∧
    (updateStatus startedNode NodeStatus_Cancel =
        { startedNode with NodeState := { startedNode.NodeState with
            Status := statusAfterCancel startedNode.NodeState.Status } } ∧
      ([Effect.logSendingSignal (OsSignal.syscallSignal 15) "step",
          Effect.kill (-4242) 15].any Effect.isKill = true →
        startedNode.NodeState.Status = NodeStatus_Running) ∧
      (∀ sig2 k2, signal (updateStatus startedNode NodeStatus_Cancel) sig2 k2 =
        Except.ok (updateStatus startedNode NodeStatus_Cancel, []))) ∧
    (∃ r, signal startedNode (OsSignal.syscallSignal 15) none = Except.ok r) :=
  ⟨rfl,
    (signal_cancel_effect startedNode (OsSignal.syscallSignal 15) none).2.2.2.1 _ _ rfl,
    (signal_cancel_effect startedNode (OsSignal.syscallSignal 15) none).2.2.2.2.2.2
      (Or.inr (Or.inr ⟨_, ⟨4242⟩, 15, rfl, rfl, rfl⟩))⟩

/-! ## Counters and `clearState` -/

/-- C5 (amended): for every node state, `ReadRetryCount()` and `ReadDoneCount()`
both return 0 immediately after `clearState()`, whatever they returned before:
the counters are reset together with the rest of `NodeState`. -/
theorem clearState_resets_counters (n : Node) :
    ReadRetryCount (clearState n) = 0 ∧ ReadDoneCount (clearState n) = 0 :=
  ⟨rfl, rfl⟩

/-- C5 (as stated) fails: after one `incRetryCount()` and one `incDoneCount()` the
counters read 1 and 1; immediately after `clearState()` they read 0 and 0. -/
theorem clearState_drops_counters :
    ReadRetryCount (incDoneCount (incRetryCount sampleNode)) = 1 ∧
    ReadDoneCount (incDoneCount (incRetryCount sampleNode)) = 1 ∧
    ReadRetryCount (clearState (incDoneCount (incRetryCount sampleNode))) = 0 ∧
    ReadDoneCount (clearState (incDoneCount (incRetryCount sampleNode))) = 0 := by
  decide

/-! ## Faults of `signal` -/

/-- C10 (failing input): a node marked Running whose command object exists but
whose process was never started (here: `Execute` could not spawn it) makes
`signal(SIGTERM)` panic on the nil process handle; a signal value that is not a
`syscall.Signal` makes it panic on the type assertion. -/
theorem signal_panics_without_process :
    unstartedNode.NodeState.Status = NodeStatus_Running ∧
    unstartedNode.cmd.map Cmd.Process = some none ∧
    signal unstartedNode (OsSignal.syscallSignal 15) none = Except.error Fault.nilDeref ∧
    signal startedNode (OsSignal.other "custom") none = Except.error Fault.typeAssertion :=
  ⟨rfl, rfl, rfl, rfl⟩

/-! ## `teardown` -/

/-- C3 (failing input): with all four handles open, closing the log file fails
and the three other operations succeed; every operation is attempted, and
`teardown()` returns nil. The same happens when the log flush is the one that
fails. -/
theorem teardown_masks_earlier_error :
    teardown openNode ⟨none, some "close /logs/step.log: input/output error", none, none⟩ =
      (none, [Effect.flush ⟨"/logs/step.log"⟩, Effect.close (some ⟨"/logs/step.log"⟩),
        Effect.flush ⟨"/tmp/out.txt"⟩, Effect.close (some ⟨"/tmp/out.txt"⟩)]) ∧
    (teardown openNode ⟨some "write /logs/step.log: no space left on device", none, none,
      none⟩).1 = none :=
  ⟨rfl, rfl⟩

/-! ## `Execute` -/

/-- C4 (failing input): the step names an output variable and `os.Pipe` fails;
`Execute()` returns the pipe error, the node's `Error` field is still nil. -/
theorem Execute_pipe_error_not_recorded :
    outputNode.NodeState.Error = none ∧
    (Execute outputNode cleanRun).2.1 = some "too many open files" ∧
    (Execute outputNode cleanRun).1.NodeState.Error = none :=
  ⟨rfl, rfl, rfl⟩

/-- C8 (failing input): with the extra assignment `FOO=bar` configured and the
caller's environment `PATH=/bin`, the child is started with `FOO=bar` alone;
without extra assignments (nil, or the empty list `init()` installs) it is started
with the caller's environment. -/
theorem Execute_drops_inherited_environment :
    cleanRun.environ = ["PATH=/bin"] ∧
    startedEnviron (Execute variablesNode cleanRun).2.2 = some ["FOO=bar"] ∧
    startedEnviron (Execute sampleNode cleanRun).2.2 = some ["PATH=/bin"] ∧
    startedEnviron (Execute (init sampleNode 1).1 cleanRun).2.2 = some ["PATH=/bin"] := by
  refine ⟨rfl, ?_, ?_, ?_⟩ <;> decide

/-! ## Paths -/

theorem splitSep_ne_nil (p : List Char) : splitSep p ≠ [] := by
  cases p with
  | nil => simp [splitSep]
  | cons c cs =>
    unfold splitSep
    split
    · simp
    · split <;> simp

theorem splitSep_of_no_sep (f : List Char) (hf : '/' ∉ f) : splitSep f = [f] := by
  induction f with
  | nil => rfl
  | cons c cs ih =>
    have hc : c ≠ '/' := fun h => hf (h ▸ List.mem_cons_self _ _)
    have hcs : '/' ∉ cs := fun h => hf (List.mem_cons_of_mem _ h)
    unfold splitSep
    rw [if_neg hc, ih hcs]

theorem splitSep_append_sep (d f : List Char) (hf : '/' ∉ f) :
    splitSep (d ++ '/' :: f) = splitSep d ++ [f] := by
  induction d with
  | nil =>
    show splitSep ('/' :: f) = splitSep [] ++ [f]
    unfold splitSep
    rw [if_pos rfl, splitSep_of_no_sep f hf]
    rfl
  | cons c cs ih =>
    show splitSep (c :: (cs ++ '/' :: f)) = splitSep (c :: cs) ++ [f]
    by_cases hc : c = '/'
    · unfold splitSep
      rw [if_pos hc, if_pos hc, ih]
      rfl
    · have h1 : splitSep (c :: (cs ++ '/' :: f)) =
          (match splitSep (cs ++ '/' :: f) with
            | [] => [[c]]
            | h :: t => (c :: h) :: t) := by
        conv => lhs; unfold splitSep
        rw [if_neg hc]
      have h2 : splitSep (c :: cs) =
          (match splitSep cs with
            | [] => [[c]]
            | h :: t => (c :: h) :: t) := by
        conv => lhs; unfold splitSep
        rw [if_neg hc]
      rw [h1, h2, ih]
      cases hs : splitSep cs with
      | nil => exact absurd hs (splitSep_ne_nil cs)
      | cons h t => rfl

theorem cleanStep_plain (rooted : Bool) (out : List (List Char)) (f : List Char)
    (hf : plainName f) : cleanStep rooted out f = f :: out := by
  unfold cleanStep
  rw [if_neg (by rintro (h | h); exact hf.1 h; exact hf.2.1 h), if_neg hf.2.2]

theorem joinRev_cons (f : List Char) (out : List (List Char)) :
    joinRev (f :: out) = (if out = [] then [] else joinRev out ++ ['/']) ++ f := by
  cases out with
  | nil => simp [joinRev]
  | cons e rest => simp [joinRev]

theorem Clean_append_sep (d f : List Char) (hs : '/' ∉ f) (hf : plainName f) :
    Clean (d ++ '/' :: f) =
      cleanLead (decide ((d ++ ['/']).head? = some '/'))
        ((splitSep d).foldl (cleanStep (decide ((d ++ ['/']).head? = some '/'))) []) ++ f := by
  have hh : (d ++ '/' :: f).head? = (d ++ ['/']).head? := by
    cases d <;> rfl
  have hne : d ++ '/' :: f ≠ [] := by
    cases d <;> simp
  unfold Clean
  rw [if_neg hne]
  simp only [hh, splitSep_append_sep d f hs, List.foldl_append, List.foldl_cons, List.foldl_nil,
    cleanStep_plain _ _ f hf, joinRev_cons]
  unfold cleanLead
  generalize decide ((d ++ ['/']).head? = some '/') = r
  cases r <;> simp

theorem Clean_plain (f : List Char) (hs : '/' ∉ f) (hf : plainName f) : Clean f = f := by
  have hh : f.head? ≠ some '/' := by
    cases f with
    | nil => simp
    | cons c cs =>
      intro h
      simp only [List.head?_cons, Option.some.injEq] at h
      exact hs (h ▸ List.mem_cons_self _ _)
  unfold Clean
  rw [if_neg hf.1]
  simp [hh, splitSep_of_no_sep f hs, cleanStep_plain _ _ f hf, joinRev]

theorem Join_injective (d f g : List Char) (hsf : '/' ∉ f) (hf : plainName f)
    (hsg : '/' ∉ g) (hg : plainName g) (h : Join d f = Join d g) : f = g := by
  unfold Join at h
  by_cases hd : d = []
  · simp only [hd, ne_eq, not_true_eq_false, if_false, hf.1, hg.1, not_false_eq_true,
      if_true] at h
    rw [Clean_plain f hsf hf, Clean_plain g hsg hg] at h
    exact h
  · simp only [ne_eq, hd, not_false_eq_true, if_true] at h
    rw [Clean_append_sep d f hsf hf, Clean_append_sep d g hsg hg] at h
    exact List.append_cancel_left h

/-! ## The log file name -/

theorem digitChar_ne_sep (d : Nat) : digitChar d ≠ '/' := by
  unfold digitChar
  have h : d % 10 < 10 := Nat.mod_lt _ (by decide)
  generalize d % 10 = k at h
  interval_cases k <;> decide

theorem digitsRev_no_sep (fuel x : Nat) : '/' ∉ digitsRev fuel x := by
  induction fuel generalizing x with
  | zero => simp [digitsRev]
  | succ fuel ih =>
    unfold digitsRev
    split
    · simp only [List.mem_singleton]
      exact fun h => digitChar_ne_sep x h.symm
    · simp only [List.mem_cons, not_or]
      exact ⟨fun h => digitChar_ne_sep x h.symm, ih _⟩

theorem appendInt_no_sep (x width : Nat) : '/' ∉ appendInt x width := by
  unfold appendInt
  simp only [List.mem_append, List.mem_replicate, List.mem_reverse, not_or]
  refine ⟨?_, digitsRev_no_sep _ _⟩
  rintro ⟨_, h⟩
  exact absurd h (by decide)

theorem not_mem_append_of (c : Char) (l1 l2 : List Char) (h1 : c ∉ l1) (h2 : c ∉ l2) :
    c ∉ l1 ++ l2 := by
  intro h
  rcases List.mem_append.mp h with h | h
  · exact h1 h
  · exact h2 h

theorem Format_no_sep (t : Time) : '/' ∉ t.Format := by
  unfold Time.Format
  have hd : '/' ∉ ['.'] := by decide
  have hc : '/' ∉ [':'] := by decide
  have ht : '/' ∉ (appendInt (t.nanosecond % 1000000000) 9).take 3 :=
    fun h => appendInt_no_sep _ _ (List.mem_of_mem_take h)
  have a := appendInt_no_sep
  exact not_mem_append_of _ _ _ (not_mem_append_of _ _ _ (not_mem_append_of _ _ _
    (not_mem_append_of _ _ _ (not_mem_append_of _ _ _ (not_mem_append_of _ _ _
    (not_mem_append_of _ _ _ (not_mem_append_of _ _ _ (not_mem_append_of _ _ _
    (not_mem_append_of _ _ _ (a _ _) (a _ _)) (a _ _)) hd) (a _ _)) hc) (a _ _)) hc) (a _ _))
    hd) ht

theorem logFileName_no_sep (v r : List Char) (t : Time) (hv : '/' ∉ v)
    (hr : '/' ∉ TruncString r 8) : '/' ∉ logFileName v t r := by
  unfold logFileName
  have hd : '/' ∉ ['.'] := by decide
  have hl : '/' ∉ ['.', 'l', 'o', 'g'] := by decide
  exact not_mem_append_of _ _ _ (not_mem_append_of _ _ _ (not_mem_append_of _ _ _
    (not_mem_append_of _ _ _ (not_mem_append_of _ _ _ hv hd) (Format_no_sep t)) hd) hr) hl

theorem logFileName_plain (v r : List Char) (t : Time) : plainName (logFileName v t r) := by
  have hl : 4 ≤ (logFileName v t r).length := by
    unfold logFileName
    simp only [List.length_append, List.length_cons, List.length_nil]
    omega
  refine ⟨?_, ?_, ?_⟩ <;> intro h <;> rw [h] at hl <;> simp at hl

theorem logFileName_injective (v r : List Char) (t1 t2 : Time)
    (h : logFileName v t1 r = logFileName v t2 r) : t1.Format = t2.Format := by
  unfold logFileName at h
  simp only [List.append_assoc] at h
  have h1 := List.append_cancel_left h
  have h2 := List.append_cancel_left h1
  exact List.append_cancel_right h2

theorem logPath_injective (vf : String → String → String) (name logDir requestId : String)
    (t1 t2 : Time) (hname : '/' ∉ (vf name "_").data)
    (hid : '/' ∉ TruncString requestId.data 8)
    (h : logPath vf name logDir requestId t1 = logPath vf name logDir requestId t2) :
    t1.Format = t2.Format := by
  unfold logPath at h
  injection h with h
  exact logFileName_injective _ _ _ _
    (Join_injective _ _ _ (logFileName_no_sep _ _ _ hname hid) (logFileName_plain _ _ _)
      (logFileName_no_sep _ _ _ hname hid) (logFileName_plain _ _ _) h)

/-! ## The log path computed by `setup` -/

theorem setupLog_Log (n : Node) (o : SetupCalls) :
    (setupLog n o).1.NodeState.Log = n.NodeState.Log := by
  unfold setupLog
  split
  · rfl
  · split <;> rfl

theorem setupStdout_Log (n : Node) (o : SetupCalls) :
    (setupStdout n o).1.NodeState.Log = n.NodeState.Log := by
  unfold setupStdout
  split
  · split <;> rfl
  · rfl

theorem setupScript_Log (n : Node) (o : SetupCalls) :
    (setupScript n o).1.NodeState.Log = n.NodeState.Log := by
  unfold setupScript
  split
  · split <;> rfl
  · rfl

theorem setupLoop_Log (o : SetupCalls)
    (fns : List (Node → SetupCalls → Node × GoError × List Effect))
    (hf : ∀ fn ∈ fns, ∀ n, (fn n o).1.NodeState.Log = n.NodeState.Log) (n : Node) :
    (setupLoop o fns n).1.NodeState.Log = n.NodeState.Log := by
  induction fns generalizing n with
  | nil => rfl
  | cons fn rest ih =>
    have h1 := hf fn (List.mem_cons_self _ _) n
    have ih2 := fun m => ih (fun g hg => hf g (List.mem_cons_of_mem _ hg)) m
    rcases hfn : fn n o with ⟨n1, r, effs⟩
    rw [hfn] at h1
    cases r with
    | some err =>
      rw [setupLoop_cons_err o fn rest n n1 err effs hfn]
      exact h1
    | none =>
      rw [setupLoop_cons_ok o fn rest n n1 effs hfn]
      exact (ih2 n1).trans h1

theorem setup_Log (vf : String → String → String) (n : Node) (o : SetupCalls)
    (logDir requestId : String) :
    (setup vf n o logDir requestId).1.NodeState.Log =
      logPath vf n.Step.Name logDir requestId o.now := by
  unfold setup
  rw [setupLoop_Log]
  intro fn hfn m
  simp only [List.mem_cons, List.mem_singleton, List.not_mem_nil, or_false] at hfn
  rcases hfn with h | h | h
  · rw [h]; exact setupLog_Log m o
  · rw [h]; exact setupStdout_Log m o
  · rw [h]; exact setupScript_Log m o

/-- C6 (amended): for every node name, log directory and request id such that
neither the sanitized name nor the first 8 characters of the request id contain
the path separator, two attempts of `setup()` on nodes of that name whose start
times print differently under the layout `20060102.15:04:05.000` (that is, differ
at millisecond resolution) store different log file paths. -/
theorem setup_log_paths_differ (vf : String → String → String) (n1 n2 : Node)
    (o1 o2 : SetupCalls) (logDir requestId : String)
    (hsame : n1.Step.Name = n2.Step.Name)
    (hname : '/' ∉ (vf n1.Step.Name "_").data)
    (hid : '/' ∉ TruncString requestId.data 8)
    (ht : o1.now.Format ≠ o2.now.Format) :
    (setup vf n1 o1 logDir requestId).1.NodeState.Log ≠
      (setup vf n2 o2 logDir requestId).1.NodeState.Log := by
  rw [setup_Log, setup_Log, ← hsame]
  exact fun h => ht (logPath_injective vf _ _ _ _ _ hname hid h)

/-- Witness for C6 (amended): two attempts of the node `step` one millisecond
apart under the request id `0123456789abcdef`. -/
theorem setup_log_paths_differ_witness :
    (setup keepName sampleNode firstAttempt "/logs" "0123456789abcdef").1.NodeState.Log ≠
      (setup keepName sampleNode nextMillisecond "/logs" "0123456789abcdef").1.NodeState.Log :=
  setup_log_paths_differ keepName sampleNode sampleNode firstAttempt nextMillisecond "/logs"
    "0123456789abcdef" rfl (by decide) (by decide) (by decide)

/-- C6 (as stated) fails: two attempts whose start times differ by 999999
nanoseconds inside one millisecond store the same log file path. -/
theorem setup_log_paths_collide :
    firstAttempt.now ≠ sameMillisecond.now ∧
    (setup keepName sampleNode firstAttempt "/logs" "0123456789abcdef").1.NodeState.Log =
      "/logs/step.20220307.09:05:01.100.01234567.log" ∧
    (setup keepName sampleNode sameMillisecond "/logs" "0123456789abcdef").1.NodeState.Log =
      "/logs/step.20220307.09:05:01.100.01234567.log" := by
  refine ⟨by decide, ?_, ?_⟩
  · rw [setup_Log]; decide
  · rw [setup_Log]; decide

/-- A path separator in the request id lets `filepath.Join` remove the timestamp:
attempts one millisecond apart then store the same path. -/
theorem logPath_request_id_with_separator :
    logPath keepName "step" "/logs" "/../../x" firstAttempt.now = "/x.log" ∧
    logPath keepName "step" "/logs" "/../../x" nextMillisecond.now = "/x.log" := by
  constructor <;> decide

/-! ## Failure of a step of `setup` -/

theorem cleanStep_nonempty (rooted : Bool) (out : List (List Char)) (x : List Char)
    (h : ∀ e ∈ out, e ≠ []) : ∀ e ∈ cleanStep rooted out x, e ≠ [] := by
  unfold cleanStep
  split
  · exact h
  · rename_i hx
    split
    · rename_i hdd
      have hne : x ≠ [] := fun hc => hx (Or.inl hc)
      cases out with
      | nil =>
        dsimp only
        split
        · intro e he; exact absurd he (List.not_mem_nil _)
        · intro e he
          rw [List.mem_singleton] at he
          rw [he]; exact hne
      | cons top rest =>
        dsimp only
        split
        · intro e he
          rcases List.mem_cons.mp he with h1 | h1
          · rw [h1]; exact hne
          · exact h e h1
        · intro e he
          exact h e (List.mem_cons_of_mem _ he)
    · intro e he
      rcases List.mem_cons.mp he with h1 | h1
      · rw [h1]; exact fun hc => hx (Or.inl hc)
      · exact h e h1

theorem foldl_cleanStep_nonempty (rooted : Bool) (l : List (List Char))
    (out : List (List Char)) (h : ∀ e ∈ out, e ≠ []) :
    ∀ e ∈ l.foldl (cleanStep rooted) out, e ≠ [] := by
  induction l generalizing out with
  | nil => exact h
  | cons x xs ih => exact ih _ (cleanStep_nonempty rooted out x h)

theorem joinRev_ne_nil (out : List (List Char)) (hne : out ≠ []) (h : ∀ e ∈ out, e ≠ []) :
    joinRev out ≠ [] := by
  cases out with
  | nil => exact absurd rfl hne
  | cons e rest =>
    cases rest with
    | nil => exact h e (List.mem_cons_self _ _)
    | cons e2 rest2 => simp [joinRev]

theorem Clean_ne_nil (p : List Char) : Clean p ≠ [] := by
  unfold Clean
  split
  · simp
  · dsimp only
    split
    · simp
    · split
      · simp
      · rename_i hout
        exact joinRev_ne_nil _ hout
          (foldl_cleanStep_nonempty _ _ [] (fun e he => absurd he (List.not_mem_nil _)))

theorem logPath_ne_empty (vf : String → String → String) (name logDir requestId : String)
    (t : Time) : logPath vf name logDir requestId t ≠ "" := by
  unfold logPath Join
  intro h0
  have h : _ = ([] : List Char) := congrArg String.data h0
  dsimp only at h
  have hf := (logFileName_plain (vf name "_").data requestId.data t).1
  by_cases hd : logDir.data = []
  · simp only [hd, ne_eq, not_true_eq_false, if_false, hf, not_false_eq_true, if_true] at h
    exact Clean_ne_nil _ h
  · simp only [ne_eq, hd, not_false_eq_true, if_true] at h
    exact Clean_ne_nil _ h

theorem setupLoop_Error (o : SetupCalls)
    (fns : List (Node → SetupCalls → Node × GoError × List Effect)) (n : Node) (e : String)
    (h : (setupLoop o fns n).2.1 = some e) :
    (setupLoop o fns n).1.NodeState.Error = some e := by
  induction fns generalizing n with
  | nil => exact Option.noConfusion h
  | cons fn rest ih =>
    rcases hfn : fn n o with ⟨n1, r, effs⟩
    cases r with
    | some err =>
      rw [setupLoop_cons_err o fn rest n n1 err effs hfn] at h ⊢
      exact h
    | none =>
      rw [setupLoop_cons_ok o fn rest n n1 effs hfn] at h ⊢
      exact ih n1 h

theorem setup_eq_loop (vf : String → String → String) (n : Node) (o : SetupCalls)
    (logDir requestId : String) :
    setup vf n o logDir requestId =
      setupLoop o [setupLog, setupStdout, setupScript] (stamped vf n o logDir requestId) :=
  rfl

theorem setupLog_error (m : Node) (o : SetupCalls) (e : String) (hl : m.NodeState.Log ≠ "")
    (h : o.openLog = Except.error e) :
    setupLog m o =
      ({ m with logFile := none, NodeState := { m.NodeState with Error := some e } }, some e,
        [Effect.openOrCreateFile m.NodeState.Log]) := by
  unfold setupLog
  rw [if_neg hl]
  simp only [h]

theorem setupLog_ok (m : Node) (o : SetupCalls) (f : File) (hl : m.NodeState.Log ≠ "")
    (h : o.openLog = Except.ok f) :
    setupLog m o =
      ({ m with logFile := some f, logWriter := some f }, none,
        [Effect.openOrCreateFile m.NodeState.Log]) := by
  unfold setupLog
  rw [if_neg hl]
  simp only [h]

theorem setupStdout_error (m : Node) (o : SetupCalls) (e : String) (hs : m.Step.Stdout ≠ "")
    (h : o.openStdout = Except.error e) :
    setupStdout m o =
      ({ m with stdoutFile := none, NodeState := { m.NodeState with Error := some e } }, some e,
        [Effect.openOrCreateFile (stdoutPath m)]) := by
  unfold setupStdout
  rw [if_pos hs]
  simp only [h]

theorem setupStdout_succeeds (m : Node) (o : SetupCalls)
    (h : m.Step.Stdout = "" ∨ ∃ g, o.openStdout = Except.ok g) :
    (setupStdout m o).2.1 = none ∧ (setupStdout m o).1.Step = m.Step := by
  unfold setupStdout
  rcases h with h | ⟨g, h⟩
  · rw [if_neg (not_not.mpr h)]
    exact ⟨rfl, rfl⟩
  · split
    · rw [h]
      exact ⟨rfl, rfl⟩
    · exact ⟨rfl, rfl⟩

theorem setupScript_fails (m : Node) (o : SetupCalls) (e : String) (hs : m.Step.Script ≠ "")
    (h : scriptWrite o.createTemp o = some e ∨
      (scriptWrite o.createTemp o = none ∧ o.sync = some e)) :
    (setupScript m o).2.1 = some e := by
  unfold setupScript
  rw [if_pos hs]
  rcases h with h | ⟨h, h2⟩
  · simp only [h]
  · simp only [h, h2]

/-- C9 (amended): whenever one of `setup()`'s steps fails, `setup()` returns that
step's non-nil error, runs none of the later steps, and leaves the node with its
`Error` field equal to the returned error.  When opening the log file fails the
only call made is that open; when opening the stdout file fails the calls made
are the two opens and no script file is created; a failure of the script step
(create, write or sync) is returned likewise.  `setup()` never writes the status:
it is the status before the call. -/
theorem setup_failure (vf : String → String → String) (n : Node) (o : SetupCalls)
    (logDir requestId : String) :
    (∀ e, o.openLog = Except.error e →
      setup vf n o logDir requestId =
        ({ stamped vf n o logDir requestId with
            logFile := none,
            NodeState := { (stamped vf n o logDir requestId).NodeState with Error := some e } },
          some e,
          [Effect.openOrCreateFile (logPath vf n.Step.Name logDir requestId o.now)])) ∧
    (∀ f e, o.openLog = Except.ok f → n.Step.Stdout ≠ "" → o.openStdout = Except.error e →
      setup vf n o logDir requestId =
        ({ stamped vf n o logDir requestId with
            logFile := some f, logWriter := some f, stdoutFile := none,
            NodeState := { (stamped vf n o logDir requestId).NodeState with Error := some e } },
          some e,
          [Effect.openOrCreateFile (logPath vf n.Step.Name logDir requestId o.now),
            Effect.openOrCreateFile (stdoutPath n)])) ∧
    (∀ f e, o.openLog = Except.ok f →
      (n.Step.Stdout = "" ∨ ∃ g, o.openStdout = Except.ok g) →
      n.Step.Script ≠ "" →
      (scriptWrite o.createTemp o = some e ∨
        (scriptWrite o.createTemp o = none ∧ o.sync = some e)) →
      (setup vf n o logDir requestId).2.1 = some e) ∧
    (∀ e, (setup vf n o logDir requestId).2.1 = some e →
      (setup vf n o logDir requestId).1.NodeState.Error = some e) ∧
    (setup vf n o logDir requestId).1.NodeState.Status = n.NodeState.Status := by
  have hl : (stamped vf n o logDir requestId).NodeState.Log ≠ "" :=
    logPath_ne_empty vf n.Step.Name logDir requestId o.now
  refine ⟨?_, ?_, ?_, ?_, setup_Status vf n o logDir requestId⟩
  · intro e he
    rw [setup_eq_loop, setupLoop_cons_err o _ _ _ _ e _ (setupLog_error _ o e hl he)]
    rfl
  · intro f e hf hs he
    have h2 := setupLoop_cons_err o setupStdout [setupScript] _ _ e _
      (setupStdout_error
        { stamped vf n o logDir requestId with logFile := some f, logWriter := some f } o e hs he)
    rw [setup_eq_loop, setupLoop_cons_ok o _ _ _ _ _ (setupLog_ok _ o f hl hf), h2]
    rfl
  · intro f e hf hs hsc he
    rw [setup_eq_loop, setupLoop_cons_ok o _ _ _ _ _ (setupLog_ok _ o f hl hf)]
    dsimp only
    obtain ⟨h1, h2⟩ := setupStdout_succeeds
      { stamped vf n o logDir requestId with logFile := some f, logWriter := some f } o hs
    rcases hst : setupStdout
      { stamped vf n o logDir requestId with logFile := some f, logWriter := some f } o
      with ⟨n2, r2, e2⟩
    rw [hst] at h1 h2
    dsimp only at h1 h2
    subst h1
    rw [setupLoop_cons_ok o _ _ _ n2 e2 hst]
    dsimp only
    have h3 := setupScript_fails n2 o e (by rw [h2]; exact hsc) he
    rcases hsp : setupScript n2 o with ⟨n3, r3, e3⟩
    rw [hsp] at h3
    dsimp only at h3
    subst h3
    rw [setupLoop_cons_err o _ _ n2 n3 e e3 hsp]
  · intro e he
    rw [setup_eq_loop] at he ⊢
    exact setupLoop_Error o _ _ e he

/-- Witness for C9 (amended): the log file cannot be opened; `setup()` returns the
error after that single call and stores it in the `Error` field. -/
theorem setup_failure_witness :
    setup keepName sampleNode logDenied "/logs" "0123456789abcdef" =
      ({ stamped keepName sampleNode logDenied "/logs" "0123456789abcdef" with
          logFile := none,
          NodeState := { (stamped keepName sampleNode logDenied "/logs"
            "0123456789abcdef").NodeState with
              Error := some "open /logs: permission denied" } },
        some "open /logs: permission denied",
        [Effect.openOrCreateFile
          (logPath keepName sampleNode.Step.Name "/logs" "0123456789abcdef" logDenied.now)]) :=
  (setup_failure keepName sampleNode logDenied "/logs" "0123456789abcdef").1
    "open /logs: permission denied" rfl

/-- C9 (as stated) fails: after a `setup()` in which the log file cannot be opened
the error is returned and stored, and the status is still NotStarted, not Error. -/
theorem setup_failure_keeps_status :
    (setup keepName sampleNode logDenied "/logs" "0123456789abcdef").2.1 =
      some "open /logs: permission denied" ∧
    (setup keepName sampleNode logDenied "/logs" "0123456789abcdef").1.NodeState.Error =
      some "open /logs: permission denied" ∧
    (setup keepName sampleNode logDenied "/logs" "0123456789abcdef").1.NodeState.Status =
      NodeStatus_None := by
  refine ⟨?_, ?_, ?_⟩ <;> decide

/-! ## `init` and the id counter -/

theorem wrap64_of_small (x : Int) (h1 : 0 ≤ x) (h2 : x < 2 ^ 63) : wrap64 x = x := by
  unfold wrap64
  norm_num at h2 ⊢
  omega

theorem init_id (n : Node) (k : Int) : (init n k).1.id = if n.id = 0 then k else n.id := by
  unfold init
  by_cases h : n.id = 0
  · simp only [h, ne_eq, not_true_eq_false, if_false, if_true]
  · simp only [h, ne_eq, not_false_eq_true, if_true, if_false]

theorem init_next (n : Node) (k : Int) :
    (init n k).2 = if n.id = 0 then wrap64 (k + 1) else k := by
  unfold init
  by_cases h : n.id = 0
  · simp only [h, ne_eq, not_true_eq_false, if_false, if_true]
  · simp only [h, ne_eq, not_false_eq_true, if_true, if_false]

theorem get?_set_self {α : Type} (l : List α) (i : Nat) (a : α) (h : i < l.length) :
    (l.set i a).get? i = some a := by
  induction l generalizing i with
  | nil => exact absurd h (Nat.not_lt_zero _)
  | cons x xs ih =>
    cases i with
    | zero => rfl
    | succ i => exact ih i (Nat.lt_of_succ_lt_succ h)

theorem get?_set_other {α : Type} (l : List α) (i j : Nat) (a : α) (h : j ≠ i) :
    (l.set i a).get? j = l.get? j := by
  induction l generalizing i j with
  | nil => rfl
  | cons x xs ih =>
    cases i with
    | zero =>
      cases j with
      | zero => exact absurd rfl h
      | succ j => rfl
    | succ i =>
      cases j with
      | zero => rfl
      | succ j => exact ih i j (fun hc => h (congrArg Nat.succ hc))

theorem get?_lt_length {α : Type} (l : List α) (i : Nat) (b : α) (h : l.get? i = some b) :
    i < l.length := by
  induction l generalizing i with
  | nil => exact Option.noConfusion h
  | cons x xs ih =>
    cases i with
    | zero => exact Nat.succ_pos _
    | succ i => exact Nat.succ_lt_succ (ih i h)

theorem countP_set_gain {α : Type} (p : α → Bool) (l : List α) (i : Nat) (a b : α)
    (hb : l.get? i = some b) (hpb : p b = false) (hpa : p a = true) :
    (l.set i a).countP p = l.countP p + 1 := by
  induction l generalizing i with
  | nil => exact Option.noConfusion hb
  | cons x xs ih =>
    cases i with
    | zero =>
      have hx : x = b := Option.some.inj hb
      subst hx
      simp [List.countP_cons, hpb, hpa]
    | succ i =>
      have := ih i hb
      simp only [List.set_cons_succ, List.countP_cons, this]
      omega

theorem pending_idAt (w : Nodes) (i : Nat) (h : w.pending i = true) : w.idAt i = 0 := by
  unfold Nodes.pending at h
  unfold Nodes.idAt
  cases hg : w.nodes.get? i with
  | none => rfl
  | some n =>
    rw [hg] at h
    exact of_decide_eq_true h

theorem idAt_initAt (w : Nodes) (i j : Nat) :
    (w.initAt i).idAt j = if j = i ∧ w.pending i = true then w.nextNodeId else w.idAt j := by
  unfold Nodes.initAt Nodes.pending
  cases hg : w.nodes.get? i with
  | none => simp
  | some n =>
    have hi := get?_lt_length _ _ _ hg
    by_cases hj : j = i
    · subst hj
      simp only [Nodes.idAt, get?_set_self _ _ _ hi, init_id, hg, true_and, decide_eq_true_eq]
    · simp only [Nodes.idAt, get?_set_other _ _ _ _ hj, hj, false_and, if_false]

theorem next_initAt (w : Nodes) (i : Nat) :
    (w.initAt i).nextNodeId =
      if w.pending i = true then wrap64 (w.nextNodeId + 1) else w.nextNodeId := by
  unfold Nodes.initAt Nodes.pending
  cases hg : w.nodes.get? i with
  | none => simp
  | some n =>
    simp only [init_next, decide_eq_true_eq]

theorem length_initAt (w : Nodes) (i : Nat) :
    (w.initAt i).nodes.length = w.nodes.length := by
  unfold Nodes.initAt
  cases hg : w.nodes.get? i with
  | none => rfl
  | some n => simp

theorem countP_set_same {α : Type} (p : α → Bool) (l : List α) (i : Nat) (b : α)
    (hb : l.get? i = some b) : (l.set i b).countP p = l.countP p := by
  induction l generalizing i with
  | nil => rfl
  | cons x xs ih =>
    cases i with
    | zero =>
      have hx : x = b := Option.some.inj hb
      subst hx
      rfl
    | succ i =>
      simp only [List.set_cons_succ, List.countP_cons, ih i hb]

theorem assigned_initAt (w : Nodes) (i : Nat) (hn : w.nextNodeId ≠ 0) :
    (w.initAt i).assigned = if w.pending i = true then w.assigned + 1 else w.assigned := by
  unfold Nodes.initAt Nodes.pending Nodes.assigned
  cases hg : w.nodes.get? i with
  | none => simp
  | some n =>
    by_cases h0 : n.id = 0
    · simp only [h0, decide_True, if_true]
      apply countP_set_gain _ _ _ _ n hg
      · simp [h0]
      · simp [init_id, h0, hn]
    · have hinit : (init n w.nextNodeId).1 = n := by
        unfold init
        simp only [ne_eq, h0, not_false_eq_true, if_true]
      simp only [h0, decide_False, Bool.false_eq_true, if_false, hinit]
      exact countP_set_same _ _ _ _ hg

theorem Consistent_initAt (w : Nodes) (i : Nat) (hc : w.Consistent)
    (hlen : w.nodes.length < 2 ^ 63 - 1) :
    (w.initAt i).Consistent ∧ w.nextNodeId ≤ (w.initAt i).nextNodeId := by
  obtain ⟨ha, hb, hd⟩ := hc
  have hn : w.nextNodeId ≠ 0 := by omega
  have hcount : (w.initAt i).assigned ≤ w.nodes.length := by
    rw [← length_initAt w i]
    exact List.countP_le_length _
  have hasg := assigned_initAt w i hn
  have hnext := next_initAt w i
  have hid := idAt_initAt w i
  by_cases hp : w.pending i = true
  · simp only [hp, if_true] at hasg hnext
    simp only [hp, and_true] at hid
    have hw : wrap64 (w.nextNodeId + 1) = w.nextNodeId + 1 := by
      apply wrap64_of_small
      · omega
      · norm_num at hlen ⊢
        omega
    rw [hw] at hnext
    refine ⟨⟨?_, ?_, ?_⟩, by omega⟩
    · rw [hnext, hasg, ha]
      push_cast
      ring
    · intro j
      rw [hid j, hnext]
      by_cases hj : j = i
      · simp only [hj, if_true]
        right
        omega
      · simp only [hj, if_false]
        rcases hb j with h | h
        · exact Or.inl h
        · exact Or.inr ⟨h.1, by omega⟩
    · intro a b hab
      rw [hid a, hid b]
      by_cases h1 : a = i
      · have h2 : b ≠ i := fun h => hab (h1.trans h.symm)
        simp only [h1, if_true, h2, if_false]
        intro _ heq
        rcases hb b with h | h
        · exact hn (heq.trans h)
        · omega
      · simp only [h1, if_false]
        intro hne
        by_cases h2 : b = i
        · simp only [h2, if_true]
          rcases hb a with h | h
          · exact absurd h hne
          · omega
        · simp only [h2, if_false]
          exact hd a b hab hne
  · simp only [hp, Bool.false_eq_true, if_false] at hasg hnext
    simp only [hp, Bool.false_eq_true, and_false, if_false] at hid
    refine ⟨⟨?_, ?_, ?_⟩, by omega⟩
    · rw [hnext, hasg, ha]
    · intro j
      rw [hid j, hnext]
      exact hb j
    · intro a b hab
      rw [hid a, hid b]
      exact hd a b hab

theorem Consistent_initAll (w : Nodes) (calls : List Nat) (hc : w.Consistent)
    (hlen : w.nodes.length < 2 ^ 63 - 1) :
    (w.initAll calls).Consistent ∧ w.nextNodeId ≤ (w.initAll calls).nextNodeId ∧
      (w.initAll calls).nodes.length = w.nodes.length := by
  induction calls generalizing w with
  | nil => exact ⟨hc, le_refl _, rfl⟩
  | cons c rest ih =>
    obtain ⟨h1, h2⟩ := Consistent_initAt w c hc hlen
    have hl := length_initAt w c
    obtain ⟨h3, h4, h5⟩ := ih (w.initAt c) h1 (by rw [hl]; exact hlen)
    exact ⟨h3, le_trans h2 h4, h5.trans hl⟩

theorem idAt_initAll_of_ne_zero (w : Nodes) (calls : List Nat) (j : Nat)
    (h : w.idAt j ≠ 0) : (w.initAll calls).idAt j = w.idAt j := by
  induction calls generalizing w with
  | nil => rfl
  | cons c rest ih =>
    have hstep : (w.initAt c).idAt j = w.idAt j := by
      rw [idAt_initAt]
      by_cases hj : j = c ∧ w.pending c = true
      · exact absurd (hj.1 ▸ pending_idAt w c hj.2) h
      · rw [if_neg hj]
    have := ih (w.initAt c) (by rw [hstep]; exact h)
    exact this.trans hstep

theorem idAt_initAll_of_zero (w : Nodes) (calls : List Nat) (j : Nat) (hc : w.Consistent)
    (hlen : w.nodes.length < 2 ^ 63 - 1) (h : w.idAt j = 0) :
    (w.initAll calls).idAt j = 0 ∨ w.nextNodeId ≤ (w.initAll calls).idAt j := by
  induction calls generalizing w with
  | nil => exact Or.inl h
  | cons c rest ih =>
    obtain ⟨h1, h2⟩ := Consistent_initAt w c hc hlen
    have hl := length_initAt w c
    by_cases hz : (w.initAt c).idAt j = 0
    · rcases ih (w.initAt c) h1 (by rw [hl]; exact hlen) hz with h3 | h3
      · exact Or.inl h3
      · exact Or.inr (le_trans h2 h3)
    · right
      have hkeep := idAt_initAll_of_ne_zero (w.initAt c) rest j hz
      have hval : (w.initAt c).idAt j = w.nextNodeId := by
        have := idAt_initAt w c j
        by_cases hj : j = c ∧ w.pending c = true
        · rw [if_pos hj] at this; exact this
        · rw [if_neg hj] at this; exact absurd (this.trans h) hz
      show w.nextNodeId ≤ ((w.initAt c).initAll rest).idAt j
      rw [hkeep, hval]

theorem Consistent_fresh (nodes : List Node) (hzero : ∀ n ∈ nodes, n.id = 0) :
    (Nodes.fresh nodes).Consistent := by
  have hid : ∀ j, (Nodes.fresh nodes).idAt j = 0 := by
    intro j
    unfold Nodes.idAt Nodes.fresh
    cases hg : nodes.get? j with
    | none => rfl
    | some n => exact hzero n (List.get?_mem hg)
  refine ⟨?_, fun j => Or.inl (hid j), fun i j _ h => absurd (hid i) h⟩
  have : (Nodes.fresh nodes).assigned = 0 := by
    unfold Nodes.assigned Nodes.fresh
    rw [List.countP_eq_zero]
    intro n hn
    simp [hzero n hn]
  rw [this]
  rfl

/-- C7: for every collection of fewer than 2^63 - 1 nodes whose ids are all 0 and
every sequence of `init()` calls on them, executed one at a time from the counter
value 1 (`p` is the sequence so far, `q` any continuation): an id that is
non-zero is never changed by a later `init()`; an id handed out later is strictly
greater than every id handed out before; and no two distinct nodes hold the same
non-zero id.  (The bound on the collection keeps the 64-bit counter from
wrapping.) -/
theorem init_ids_assigned_once (nodes : List Node) (p q : List Nat)
    (hzero : ∀ n ∈ nodes, n.id = 0) (hlen : nodes.length < 2 ^ 63 - 1) :
    (∀ j, ((Nodes.fresh nodes).initAll p).idAt j ≠ 0 →
      ((Nodes.fresh nodes).initAll (p ++ q)).idAt j = ((Nodes.fresh nodes).initAll p).idAt j) ∧
    (∀ i j, ((Nodes.fresh nodes).initAll p).idAt i ≠ 0 →
      ((Nodes.fresh nodes).initAll p).idAt j = 0 →
      ((Nodes.fresh nodes).initAll (p ++ q)).idAt j ≠ 0 →
      ((Nodes.fresh nodes).initAll p).idAt i < ((Nodes.fresh nodes).initAll (p ++ q)).idAt j) ∧
    (∀ i j, i ≠ j → ((Nodes.fresh nodes).initAll (p ++ q)).idAt i ≠ 0 →
      ((Nodes.fresh nodes).initAll (p ++ q)).idAt i ≠
        ((Nodes.fresh nodes).initAll (p ++ q)).idAt j) := by
  have happ : (Nodes.fresh nodes).initAll (p ++ q) = ((Nodes.fresh nodes).initAll p).initAll q := by
    unfold Nodes.initAll
    exact List.foldl_append _ _ _ _
  have hfresh := Consistent_fresh nodes hzero
  obtain ⟨hcp, _, hlp⟩ := Consistent_initAll (Nodes.fresh nodes) p hfresh hlen
  have hlen2 : ((Nodes.fresh nodes).initAll p).nodes.length < 2 ^ 63 - 1 := by
    rw [hlp]; exact hlen
  obtain ⟨hcq, _, _⟩ := Consistent_initAll _ q hcp hlen2
  rw [happ]
  refine ⟨fun j hj => idAt_initAll_of_ne_zero _ q j hj, ?_, hcq.2.2⟩
  intro i j hi hj hne
  rcases idAt_initAll_of_zero _ q j hcp hlen2 hj with h | h
  · exact absurd h hne
  · rcases hcp.2.1 i with h2 | h2
    · exact absurd h2 hi
    · exact lt_of_lt_of_le h2.2 h

/-- Witness for C7: three fresh nodes; `init()` is called on the second one twice,
then on the first, the second and the third.  The ids end as 2, 1 and 3. -/
theorem init_ids_assigned_once_witness :
    ((∀ j, ((Nodes.fresh [sampleNode, sampleNode, sampleNode]).initAll [1, 1]).idAt j ≠ 0 →
      ((Nodes.fresh [sampleNode, sampleNode, sampleNode]).initAll ([1, 1] ++ [0, 1, 2])).idAt j =
        ((Nodes.fresh [sampleNode, sampleNode, sampleNode]).initAll [1, 1]).idAt j) ∧
    (∀ i j, ((Nodes.fresh [sampleNode, sampleNode, sampleNode]).initAll [1, 1]).idAt i ≠ 0 →
      ((Nodes.fresh [sampleNode, sampleNode, sampleNode]).initAll [1, 1]).idAt j = 0 →
      ((Nodes.fresh [sampleNode, sampleNode, sampleNode]).initAll ([1, 1] ++ [0, 1, 2])).idAt j ≠ 0 →
      ((Nodes.fresh [sampleNode, sampleNode, sampleNode]).initAll [1, 1]).idAt i <
        ((Nodes.fresh [sampleNode, sampleNode, sampleNode]).initAll
          ([1, 1] ++ [0, 1, 2])).idAt j) ∧
    (∀ i j, i ≠ j →
      ((Nodes.fresh [sampleNode, sampleNode, sampleNode]).initAll ([1, 1] ++ [0, 1, 2])).idAt i ≠ 0 →
      ((Nodes.fresh [sampleNode, sampleNode, sampleNode]).initAll ([1, 1] ++ [0, 1, 2])).idAt i ≠
        ((Nodes.fresh [sampleNode, sampleNode, sampleNode]).initAll
          ([1, 1] ++ [0, 1, 2])).idAt j)) ∧
    ((Nodes.fresh [sampleNode, sampleNode, sampleNode]).initAll ([1, 1] ++ [0, 1, 2])).nodes.map
      Node.id = [2, 1, 3] :=
  ⟨init_ids_assigned_once [sampleNode, sampleNode, sampleNode] [1, 1] [0, 1, 2]
      (by decide) (by norm_num),
    by decide⟩

end Dagu
